import Mathlib

set_option maxRecDepth 100000

/-!
Shallow embedding of the diff-analysis core of the `gemini-reviewer`
repository (`src/tools.ts` and the markdown-generation module): the
statistics calculator, the keyword classifier, the summary composer and
the report assembler, together with theorems checking the repository's
specification against this embedding.

JavaScript strings are modelled by Lean `String` (a wrapper around
`List Char`); the JS operations used by the source (`split` on a single
character, `Array.prototype.pop`, `Array.prototype.join`, `includes`,
`startsWith`, `toLowerCase`, membership in a `Set`, number-to-string
conversion) are defined below, operating on the underlying character
lists.
-/

/-- JS `Array.prototype.pop`-style head-consing used by `splitC`:
prepend a character to the first group of a split result. -/
def consHead (a : Char) : List (List Char) → List (List Char)
  | [] => [[a]]
  | g :: gs => (a :: g) :: gs

/-- JS `String.prototype.split` with a single-character separator,
on the underlying character list.  `splitC c l` always returns a
non-empty list of groups; `"".split(c)` is `[""]`. -/
def splitC (c : Char) : List Char → List (List Char)
  | [] => [[]]
  | a :: l => if a = c then [] :: splitC c l else consHead a (splitC c l)

/-- JS `s.split(c)` for a one-character separator string. -/
def jsSplit (c : Char) (s : String) : List String :=
  (splitC c s.data).map String.mk

/-- JS `Array.prototype.pop` on the result of a `split` (the source only
applies it to split results, which are never empty, so the default is
unreachable). -/
def jsPop (l : List String) : String := l.getLastD ""

/-- JS `Array.prototype.join(sep)`. -/
def jsJoin (sep : String) : List String → String
  | [] => ""
  | [x] => x
  | x :: y :: xs => x ++ sep ++ jsJoin sep (y :: xs)

/-- JS `String.prototype.toLowerCase` (character-wise lowering). -/
def jsToLower (s : String) : String := String.mk (s.data.map Char.toLower)

/-- Prefix test on character lists (JS `String.prototype.startsWith`). -/
def isPrefixOfC : List Char → List Char → Bool
  | [], _ => true
  | _ :: _, [] => false
  | a :: l, b :: m => a == b && isPrefixOfC l m

/-- JS `s.startsWith(pre)`. -/
def jsStartsWith (s pre : String) : Bool := isPrefixOfC pre.data s.data

/-- Substring containment on character lists (JS
`String.prototype.includes`). -/
def containsSubC : List Char → List Char → Bool
  | [], sub => sub.isEmpty
  | a :: t, sub => isPrefixOfC sub (a :: t) || containsSubC t sub

/-- JS `s.includes(sub)`. -/
def jsIncludes (s sub : String) : Bool := containsSubC s.data sub.data

/-- Number of (possibly overlapping) occurrences of `sub` in `l`:
the number of positions of `l` at which `sub` is a prefix of the
remaining suffix.  Used to state the spec's per-occurrence counting
policy, which the source does not implement. -/
def countOccC : List Char → List Char → Nat
  | [], sub => if sub.isEmpty then 1 else 0
  | a :: t, sub => (if isPrefixOfC sub (a :: t) then 1 else 0) + countOccC t sub

/-- Decimal digit characters. -/
def digitChar : Nat → Char
  | 0 => '0' | 1 => '1' | 2 => '2' | 3 => '3' | 4 => '4'
  | 5 => '5' | 6 => '6' | 7 => '7' | 8 => '8' | _ => '9'

/-- Decimal digits, most significant first, with a structural fuel
argument (the fuel is an upper bound on the number of digits, so it is
never exhausted when called through `natDigits`). -/
def natDigitsAux : Nat → Nat → List Char
  | 0, _ => []
  | fuel + 1, n =>
    if n < 10 then [digitChar n]
    else natDigitsAux fuel (n / 10) ++ [digitChar (n % 10)]

/-- Decimal digits of a natural number, most significant first. -/
def natDigits (n : Nat) : List Char := natDigitsAux (n + 1) n

/-- JS number-to-string conversion for natural numbers. -/
def jsNatToString (n : Nat) : String := String.mk (natDigits n)

/-- JS number-to-string conversion for integers (template-literal
interpolation of a JS number). -/
def jsIntToString (i : Int) : String :=
  if i < 0 then "-" ++ jsNatToString i.natAbs else jsNatToString i.natAbs

/-- JS `Set` built from a list: elements are inserted one by one, a
duplicate is ignored, and `Array.from` reads the distinct elements back
in first-insertion order. -/
def jsSetList (l : List String) : List String :=
  l.foldl (fun acc x => if x ∈ acc then acc else acc ++ [x]) []

/-- One changed file: relative path and raw unified-diff text
(`{ file, diff }` in the source). -/
structure FileDiff where
  file : String
  diff : String
deriving DecidableEq, Repr

/-- `commitMessageConfig.maxChangesForSummary`. -/
def maxChangesForSummary : Nat := 5

/-- `commitMessageConfig.defaultType`. -/
def defaultType : String := "chore"

/-- `commitMessageConfig.typeMapping`, in object-literal insertion order
(the order `Object.entries` iterates it). -/
def typeMapping : List (String × List String) :=
  [("feat", ["add", "implement", "create", "feature"]),
   ("fix", ["fix", "resolve", "bug", "issue"]),
   ("docs", ["document", "comment", "readme"]),
   ("style", ["format", "style", "css"]),
   ("refactor", ["refactor", "restructure", "reorganize"]),
   ("test", ["test", "spec", "coverage"]),
   ("chore", ["config", "setup", "dependency"])]

/-- The counter `determineCommitType` accumulates for one label's keyword
list: the nested `for` loops over diffs and keywords increment the
label's bucket once for every `(diff, keyword)` pair whose lower-cased
diff text contains the keyword (`lowerDiff.includes(keyword)`).  The
buckets of the `typeCounts` record are independent, so the record is
modelled one bucket at a time. -/
def typeCount (kws : List String) (diffs : List FileDiff) : Nat :=
  diffs.foldl
    (fun acc d =>
      kws.foldl (fun a k => if jsIncludes (jsToLower d.diff) k then a + 1 else a) acc)
    0

/-- The selection loop of `determineCommitType`: `maxCount` starts at 0 and
`maxType` at the fallback; an entry replaces the running maximum only
when its count is strictly greater (`count > maxCount`). -/
def selectMax : List (String × Nat) → Nat → String → String
  | [], _, t => t
  | (ty, c) :: rest, m, t => if c > m then selectMax rest c ty else selectMax rest m t

/-- `determineCommitType` from `tools.ts`. -/
def determineCommitType (diffs : List FileDiff) : String :=
  selectMax (typeMapping.map (fun p => (p.1, typeCount p.2 diffs))) 0 defaultType

/-- `d.file.split('/').pop()` — the basename used by
`generateChangeSummary`. -/
def basename (p : String) : String := jsPop (jsSplit '/' p)

/-- `d.file.split('.').pop()` — the "file type" used by
`generateChangeSummary` and `generateBasicReview`.  Note that for a path
with no `.` this is the whole path, not the empty string. -/
def extension (p : String) : String := jsPop (jsSplit '.' p)

/-- `generateChangeSummary` from `tools.ts`.  `diffs[0]?.file ?? 'unknown'`
is modelled with `headD`; `Array.from(fileTypes)[0]` with `headD` on the
insertion-ordered set list (only reached when the set has one element). -/
def generateChangeSummary (diffs : List FileDiff) : String :=
  if diffs.length = 0 then "No changes detected"
  else if diffs.length = 1 then
    "Update " ++ (diffs.headD ⟨"unknown", ""⟩).file
  else if diffs.length ≤ maxChangesForSummary then
    "Update " ++ jsJoin ", " (diffs.map (fun d => basename d.file))
  else
    let fileTypes := jsSetList (diffs.map (fun d => extension d.file))
    if fileTypes.length = 1 then
      "Update " ++ jsNatToString diffs.length ++ " " ++ fileTypes.headD "" ++ " files"
    else
      "Update " ++ jsNatToString diffs.length ++ " files across " ++
        jsNatToString fileTypes.length ++ " file types"

/-- `diff.split('\n').filter(line => line.startsWith('+')).length - 1`
(the per-file "lines added" count of `generateCommitDetails` and
`generateBasicReview`; the `- 1` discounts the `+++` header and is not
floored, so the result is an integer that may be `-1`). -/
def addedLines (diff : String) : Int :=
  (((jsSplit '\n' diff).filter (fun l => jsStartsWith l "+")).length : Int) - 1

/-- Symmetric `-`-line count. -/
def removedLines (diff : String) : Int :=
  (((jsSplit '\n' diff).filter (fun l => jsStartsWith l "-")).length : Int) - 1

/-- `generateCommitDetails` from `tools.ts`. -/
def generateCommitDetails (diffs : List FileDiff) : String :=
  if diffs.length = 0 then "No changes detected"
  else
    jsJoin "\n" (diffs.map (fun d =>
      d.file ++ ": +" ++ jsIntToString (addedLines d.diff) ++ " -" ++
        jsIntToString (removedLines d.diff)))

/-- Result record of `generateCommitMessage`. -/
structure CommitMessageResult where
  commitMessage : String
  details : String
deriving DecidableEq, Repr

/-- The pure core of `generateCommitMessage` (the diff list stands in for
what the git collaborator returned).  JS truthiness of the optional
`type` and `scope` strings: an absent or empty string is falsy. -/
def composeCommitMessage (diffs : List FileDiff) (ty : Option String)
    (scope : Option String) : CommitMessageResult :=
  let commitType :=
    match ty with
    | some t => if t.data.isEmpty then determineCommitType diffs else t
    | none => determineCommitType diffs
  let scopeText :=
    match scope with
    | some s => if s.data.isEmpty then ": " else "(" ++ s ++ "): "
    | none => ": "
  { commitMessage := commitType ++ scopeText ++ generateChangeSummary diffs,
    details := generateCommitDetails diffs }

/-- The complexity bucket of `generateBasicReview`:
`diff.length > 1000` is high, else `diff.length > 300` is medium,
else low. -/
def complexityOf (diff : String) : String :=
  if diff.length > 1000 then "high"
  else if diff.length > 300 then "medium"
  else "low"

/-- `${netChange > 0 ? '+' + netChange : netChange}`. -/
def netChangeStr (n : Int) : String :=
  if n > 0 then "+" ++ jsIntToString n else jsIntToString n

/-- The `totalAdditions` accumulation of `generateBasicReview`. -/
def totalAdditions (diffs : List FileDiff) : Int :=
  diffs.foldl (fun a d => a + addedLines d.diff) 0

/-- The `totalDeletions` accumulation of `generateBasicReview`. -/
def totalDeletions (diffs : List FileDiff) : Int :=
  diffs.foldl (fun a d => a + removedLines d.diff) 0

/-- `generateBasicReview` from the markdown-generation module. -/
def generateBasicReview (diffs : List FileDiff) : String :=
  if diffs.length = 0 then "No changes to review."
  else
    let fileTypes := jsSetList (diffs.map (fun d => extension d.file))
    let fileAnalysis := jsJoin "\n" (diffs.map (fun d =>
      "### " ++ d.file ++ "\n- Lines added: " ++ jsIntToString (addedLines d.diff) ++
      "\n- Lines removed: " ++ jsIntToString (removedLines d.diff) ++
      "\n- Net change: " ++ netChangeStr (addedLines d.diff - removedLines d.diff) ++
      "\n- Complexity: " ++ complexityOf d.diff ++ "\n"))
    "## Summary\n\nThis review covers " ++ jsNatToString diffs.length ++ " file" ++
      (if diffs.length ≠ 1 then "s" else "") ++ " across " ++
      jsNatToString fileTypes.length ++ " file type" ++
      (if fileTypes.length ≠ 1 then "s" else "") ++ ".\n- Total additions: " ++
      jsIntToString (totalAdditions diffs) ++ "\n- Total deletions: " ++
      jsIntToString (totalDeletions diffs) ++ "\n- Net change: " ++
      netChangeStr (totalAdditions diffs - totalDeletions diffs) ++
      "\n\n## File Analysis\n\n" ++ fileAnalysis

/-- The recognized options of `generateMarkdownFile`, with the source's
default values (`reviewComments` defaults to the empty string, which JS
treats as absent/falsy). -/
structure ReportConfig where
  title : String := "Code Review Results"
  includeChanges : Bool := true
  includeCommitMessage : Bool := true
  includeReview : Bool := false
  reviewComments : String := ""
deriving DecidableEq, Repr

/-- The tagged outcome of `generateMarkdownFile`: `success` carries the
assembled markdown content, `warning` and `error` carry the message. -/
inductive AnalysisOutcome where
  | success (content : String)
  | warning (reason : String)
  | error (reason : String)
deriving DecidableEq, Repr

/-- The `## Commit Message` section of `generateMarkdownFile` (the
template literal around `generateCommitMessage({ rootDir })`, which is
invoked with no explicit type or scope). -/
def commitMessageSectionStr (diffs : List FileDiff) : String :=
  "\n## Commit Message\n\n```\n" ++ (composeCommitMessage diffs none none).commitMessage ++
    "\n```\n\n### Details\n\n```\n" ++ (composeCommitMessage diffs none none).details ++
    "\n```\n"

/-- One per-file block of the `## File Changes` section. -/
def blockStr (d : FileDiff) : String :=
  "### " ++ d.file ++ "\n\n```diff\n" ++ d.diff ++ "\n```\n"

/-- The `## File Changes` section of `generateMarkdownFile`. -/
def changesSectionStr (diffs : List FileDiff) : String :=
  "\n## File Changes\n\n" ++ jsJoin "\n" (diffs.map blockStr) ++ "\n"

/-- The `## Code Review` section of `generateMarkdownFile`
(`reviewComments || generateBasicReview(diffs)`: an empty string is
falsy in JS, so it falls back to the generated review). -/
def reviewSectionStr (diffs : List FileDiff) (cfg : ReportConfig) : String :=
  "\n## Code Review\n\n" ++
    (if cfg.reviewComments.data.isEmpty then generateBasicReview diffs
     else cfg.reviewComments) ++ "\n"

/-- The pure core of `generateMarkdownFile`: given the diffs the git
collaborator returned, the configuration, and the generated timestamp,
either report the empty-input warning or assemble the markdown document
(review section, commit-message section, file-changes section, in that
concatenation order).  The filesystem I/O around it is the boundary, not
part of this core. -/
def assemble (rootDir : String) (diffs : List FileDiff) (cfg : ReportConfig)
    (timestamp : String) : AnalysisOutcome :=
  if diffs.length = 0 then
    .warning ("No changes detected in " ++ rootDir ++
      ". Make sure you have uncommitted changes and the directory exists.")
  else
    .success ("# " ++ cfg.title ++ "\n\n*Generated on: " ++ timestamp ++ "*\n\n" ++
      (if cfg.includeReview then reviewSectionStr diffs cfg else "") ++
      (if cfg.includeCommitMessage then commitMessageSectionStr diffs else "") ++
      (if cfg.includeChanges then changesSectionStr diffs else ""))

/-- The content of a successful outcome (empty for the other variants). -/
def outcomeContent : AnalysisOutcome → String
  | .success c => c
  | .warning _ => ""
  | .error _ => ""

/-- Number of lines of `doc` that are exactly the subsection heading
`### p`. -/
def headingCount (doc : String) (p : String) : Nat :=
  (splitC '\n' doc.data).count (("### " ++ p).data)

/-! ### Basic facts about the split/join model -/

theorem consHead_ne_nil (a : Char) (S : List (List Char)) : consHead a S ≠ [] := by
  cases S <;> simp [consHead]

theorem splitC_ne_nil (c : Char) (l : List Char) : splitC c l ≠ [] := by
  induction l with
  | nil => simp [splitC]
  | cons a t ih =>
    by_cases h : a = c
    · simp [splitC, h]
    · simpa [splitC, h] using consHead_ne_nil a (splitC c t)

theorem splitC_nil (c : Char) : splitC c [] = [[]] := rfl

theorem splitC_cons_self (c : Char) (l : List Char) :
    splitC c (c :: l) = [] :: splitC c l := by
  simp [splitC]

theorem splitC_single (c : Char) (l : List Char) (h : c ∉ l) : splitC c l = [l] := by
  induction l with
  | nil => rfl
  | cons a t ih =>
    have ha : a ≠ c := fun hac => h (hac ▸ List.mem_cons_self a t)
    have ht : c ∉ t := fun hct => h (List.mem_cons_of_mem a hct)
    simp [splitC, ha, ih ht, consHead]

theorem consHead_append (a : Char) (X Y : List (List Char)) (hX : X ≠ []) :
    consHead a (X ++ Y) = consHead a X ++ Y := by
  cases X with
  | nil => exact absurd rfl hX
  | cons g gs => simp [consHead]

theorem splitC_append_cons (c : Char) (l₁ l₂ : List Char) :
    splitC c (l₁ ++ c :: l₂) = splitC c l₁ ++ splitC c l₂ := by
  induction l₁ with
  | nil => simp [splitC, splitC_cons_self]
  | cons a t ih =>
    rw [List.cons_append]
    by_cases h : a = c
    · subst h
      rw [splitC_cons_self, splitC_cons_self, ih, List.cons_append]
    · show splitC c (a :: (t ++ c :: l₂)) = splitC c (a :: t) ++ splitC c l₂
      simp only [splitC, if_neg h]
      rw [ih]
      exact consHead_append a (splitC c t) (splitC c l₂) (splitC_ne_nil c t)

theorem mem_of_mem_splitC {c x : Char} {g l : List Char} :
    g ∈ splitC c l → x ∈ g → x ∈ l := by
  induction l generalizing g with
  | nil =>
    intro hg hx
    have hgn : g = [] := by simpa [splitC] using hg
    subst hgn
    exact absurd hx (List.not_mem_nil x)
  | cons a t ih =>
    intro hg hx
    simp only [splitC] at hg
    by_cases h : a = c
    · rw [if_pos h] at hg
      rcases List.mem_cons.mp hg with rfl | hmem
      · exact absurd hx (List.not_mem_nil x)
      · exact List.mem_cons_of_mem a (ih hmem hx)
    · rw [if_neg h] at hg
      obtain ⟨g₀, gs, hS⟩ : ∃ g₀ gs, splitC c t = g₀ :: gs := by
        rcases hS' : splitC c t with _ | ⟨g₀, gs⟩
        · exact absurd hS' (splitC_ne_nil c t)
        · exact ⟨g₀, gs, rfl⟩
      rw [hS] at hg
      simp only [consHead] at hg
      rcases List.mem_cons.mp hg with rfl | hmem
      · rcases List.mem_cons.mp hx with rfl | hx₀
        · exact List.mem_cons_self x t
        · refine List.mem_cons_of_mem a (ih ?_ hx₀)
          rw [hS]
          exact List.mem_cons_self g₀ gs
      · refine List.mem_cons_of_mem a (ih ?_ hx)
        rw [hS]
        exact List.mem_cons_of_mem g₀ hmem

theorem data_append (s t : String) : (s ++ t).data = s.data ++ t.data := rfl

theorem mk_data (s : String) : String.mk s.data = s := rfl

/-! ### C1 — DiffStatsCalculator never-negative / empty-diff clamp -/

/-- C1 counterexample: on the empty diff text the header-discount
subtraction is not floored at 0 — both counts come out as `-1`,
contradicting `computeStats("") = {added: 0, removed: 0}` and the
non-negativity claim. -/
theorem computeStats_empty_negative :
    addedLines "" = -1 ∧ removedLines "" = -1 ∧ (addedLines "" < 0) := by
  refine ⟨rfl, rfl, by decide⟩

/-- C1 (amended): the added/removed counts of the stats calculator are
bounded below by `-1` (the unclamped header discount), not by `0`;
every diff text yields counts `≥ -1`. -/
theorem computeStats_lower_bound (d : String) :
    -1 ≤ addedLines d ∧ -1 ≤ removedLines d := by
  constructor
  · have h : (0 : Int) ≤ (((jsSplit '\n' d).filter (fun l => jsStartsWith l "+")).length : Int) :=
      Int.ofNat_nonneg _
    unfold addedLines
    omega
  · have h : (0 : Int) ≤ (((jsSplit '\n' d).filter (fun l => jsStartsWith l "-")).length : Int) :=
      Int.ofNat_nonneg _
    unfold removedLines
    omega

/-! ### C3 — empty diff list always yields a Warning -/

/-- C3: for every configuration (and any root directory and timestamp),
assembling an empty diff list stops before any section is built and
returns the `warning` outcome — never `success` or `error`. -/
theorem assemble_empty_warning (rootDir : String) (cfg : ReportConfig) (ts : String) :
    assemble rootDir [] cfg ts =
      AnalysisOutcome.warning ("No changes detected in " ++ rootDir ++
        ". Make sure you have uncommitted changes and the directory exists.") ∧
    (∀ content, assemble rootDir [] cfg ts ≠ AnalysisOutcome.success content) ∧
    (∀ reason, assemble rootDir [] cfg ts ≠ AnalysisOutcome.error reason) := by
  refine ⟨rfl, ?_, ?_⟩ <;> intro s h <;> simp [assemble] at h

/-! ### C5 — complexity rating boundaries -/

/-- C5 counterexample: a 1000-character diff is rated `medium` (the code
tests `length > 1000`), not `high` as the claimed `≥ 1000 → high` rule
requires; likewise a 300-character diff is rated `low`, not `medium`. -/
theorem complexity_boundary_counterexample :
    complexityOf (String.mk (List.replicate 1000 'a')) = "medium" ∧
    complexityOf (String.mk (List.replicate 300 'a')) = "low" := by
  constructor <;> rfl

/-- C5 (amended): the complexity rating is determined solely by the raw
character length with strict thresholds — at most 300 characters is
`low`, 301 through 1000 is `medium`, and strictly more than 1000 is
`high`. -/
theorem complexity_ranges (d : String) :
    (d.length ≤ 300 → complexityOf d = "low") ∧
    (300 < d.length → d.length ≤ 1000 → complexityOf d = "medium") ∧
    (1000 < d.length → complexityOf d = "high") := by
  refine ⟨fun h => ?_, fun h₁ h₂ => ?_, fun h => ?_⟩ <;>
    simp only [complexityOf] <;> split <;> first | rfl | omega | (split <;> first | rfl | omega)

/-- Witness for C5: concrete diffs in each of the three ranges. -/
theorem complexity_ranges_witness :
    complexityOf (String.mk (List.replicate 300 'a')) = "low" ∧
    complexityOf (String.mk (List.replicate 301 'a')) = "medium" ∧
    complexityOf (String.mk (List.replicate 1001 'a')) = "high" :=
  ⟨(complexity_ranges (String.mk (List.replicate 300 'a'))).1 (by decide),
   (complexity_ranges (String.mk (List.replicate 301 'a'))).2.1 (by decide) (by decide),
   (complexity_ranges (String.mk (List.replicate 1001 'a'))).2.2 (by decide)⟩

/-! ### C7 — extensionless paths in the many-diffs summary -/

/-- C7 counterexample: with six diffs whose paths are
`Makefile, Dockerfile, a.ts, b.ts, c.ts, d.ts`, the code counts three
file types (`Makefile`, `Dockerfile`, `ts`) — each dotless path is its
own "extension" — whereas the claimed empty-string bucket would give
two. -/
theorem summary_extensionless_counterexample :
    generateChangeSummary
      [⟨"Makefile", "x"⟩, ⟨"Dockerfile", "x"⟩, ⟨"a.ts", "x"⟩,
       ⟨"b.ts", "x"⟩, ⟨"c.ts", "x"⟩, ⟨"d.ts", "x"⟩] =
      "Update 6 files across 3 file types" ∧
    ("Update 6 files across 3 file types" : String) ≠
      "Update 6 files across 2 file types" := by
  constructor
  · rfl
  · decide

/-- C7 (amended): `split('.').pop()` on a path containing no `.` returns
the whole path, so every extensionless path is its own file-type bucket
(two distinct dotless paths are two types), not one shared empty-string
type. -/
theorem extension_no_dot (p : String) (h : '.' ∉ p.data) : extension p = p := by
  unfold extension jsPop jsSplit
  rw [splitC_single '.' p.data h]
  simp [mk_data]

/-- Witness for C7: the dotless path `Makefile` is its own extension. -/
theorem extension_no_dot_witness : extension "Makefile" = "Makefile" :=
  extension_no_dot "Makefile" (by decide)

/-! ### C2 — tie-breaking in the classifier -/

/-- Maximum of a list of naturals (0 for the empty list). -/
def listMax (L : List Nat) : Nat := L.foldr Nat.max 0

theorem natMax_eq_left {a b : Nat} (h : b ≤ a) : Nat.max a b = a := Nat.max_eq_left h

theorem natMax_eq_right {a b : Nat} (h : a ≤ b) : Nat.max a b = b := Nat.max_eq_right h

theorem natMax_le_iff {a b c : Nat} : Nat.max a b ≤ c ↔ a ≤ c ∧ b ≤ c := Nat.max_le

theorem listMax_mem (L : List Nat) (h : L ≠ []) : listMax L ∈ L := by
  induction L with
  | nil => exact absurd rfl h
  | cons a t ih =>
    simp only [listMax, List.foldr_cons]
    rcases Nat.le_total (List.foldr Nat.max 0 t) a with hle | hle
    · rw [natMax_eq_left hle]
      exact List.mem_cons_self a t
    · by_cases ht : t = []
      · subst ht
        simp [natMax_eq_left (Nat.zero_le a)]
      · rw [natMax_eq_right hle]
        exact List.mem_cons_of_mem a (ih ht)

/-- The running-maximum loop of `determineCommitType`, characterized:
if no entry strictly exceeds the initial maximum the initial label is
kept, otherwise the result is the first entry attaining the overall
maximum count. -/
theorem selectMax_eq (L : List (String × Nat)) (m : Nat) (t : String) :
    selectMax L m t =
      if listMax (L.map Prod.snd) ≤ m then t
      else ((L.find? (fun p => p.2 == listMax (L.map Prod.snd))).map Prod.fst).getD t := by
  induction L generalizing m t with
  | nil => simp [selectMax, listMax]
  | cons hd rest ih =>
    obtain ⟨ty, c⟩ := hd
    have hM : listMax (((ty, c) :: rest).map Prod.snd) = Nat.max c (listMax (rest.map Prod.snd)) := rfl
    by_cases hc : c > m
    · rw [show selectMax ((ty, c) :: rest) m t = selectMax rest c ty from by simp [selectMax, hc]]
      rw [ih c ty, hM]
      by_cases hM' : listMax (rest.map Prod.snd) ≤ c
      · rw [if_pos hM', natMax_eq_left hM']
        rw [if_neg (by omega)]
        rw [List.find?_cons_of_pos _ (by simp)]
        simp
      · have hlt : c < listMax (rest.map Prod.snd) := Nat.lt_of_not_le hM'
        rw [if_neg hM', natMax_eq_right (Nat.le_of_lt hlt)]
        rw [if_neg (by omega)]
        rw [List.find?_cons_of_neg _ (by simp; omega)]
        obtain ⟨p, hp, hpv⟩ : ∃ p ∈ rest, p.2 = listMax (rest.map Prod.snd) := by
          have hmem : listMax (rest.map Prod.snd) ∈ rest.map Prod.snd := by
            apply listMax_mem
            intro hnil
            rw [hnil] at hlt
            simp [listMax] at hlt
          obtain ⟨p, hp, hpv⟩ := List.mem_map.mp hmem
          exact ⟨p, hp, hpv⟩
        obtain ⟨q, hq⟩ : ∃ q, rest.find? (fun p => p.2 == listMax (rest.map Prod.snd)) = some q := by
          rcases hfind : rest.find? (fun p => p.2 == listMax (rest.map Prod.snd)) with _ | q
          · exfalso
            have := List.find?_eq_none.mp hfind p hp
            simp [hpv] at this
          · exact ⟨q, hfind⟩
        rw [hq]
        simp
    · rw [show selectMax ((ty, c) :: rest) m t = selectMax rest m t from by simp [selectMax, hc]]
      rw [ih m t, hM]
      have hcm : c ≤ m := Nat.le_of_not_lt hc
      by_cases hM' : listMax (rest.map Prod.snd) ≤ m
      · rw [if_pos hM', if_pos (natMax_le_iff.mpr ⟨hcm, hM'⟩)]
      · have hlt : m < listMax (rest.map Prod.snd) := Nat.lt_of_not_le hM'
        rw [if_neg hM', natMax_eq_right (by omega)]
        rw [if_neg (by omega)]
        rw [List.find?_cons_of_neg _ (by simp; omega)]

/-- C2 counterexample: for the single diff text
`"add implement fix bug"`, the `feat` and `fix` counters tie at the
strictly highest value 2, yet the classifier returns `feat` (the first
label in catalog order), not the fallback `chore` that the claimed
tie-break rule requires. -/
theorem classify_tie_counterexample :
    typeCount ["add", "implement", "create", "feature"]
      [⟨"f.ts", "add implement fix bug"⟩] = 2 ∧
    typeCount ["fix", "resolve", "bug", "issue"]
      [⟨"f.ts", "add implement fix bug"⟩] = 2 ∧
    (∀ p ∈ typeMapping, typeCount p.2 [⟨"f.ts", "add implement fix bug"⟩] ≤ 2) ∧
    determineCommitType [⟨"f.ts", "add implement fix bug"⟩] = "feat" ∧
    ("feat" : String) ≠ "chore" :=
  ⟨rfl, rfl, by decide, rfl, by decide⟩

/-- C2 (amended): the classifier selects the label with the strictly
highest keyword counter; when all counters are zero (in particular on
the empty diff sequence) it returns the fallback `chore`; but a tie for
the highest nonzero count resolves to the earliest tied label in the
fixed catalog order (feat, fix, docs, style, refactor, test, chore),
not to `chore`. -/
theorem classify_selection_rule (diffs : List FileDiff) :
    determineCommitType diffs =
      (if listMax ((typeMapping.map (fun p => (p.1, typeCount p.2 diffs))).map Prod.snd) = 0
       then "chore"
       else (((typeMapping.map (fun p => (p.1, typeCount p.2 diffs))).find?
                (fun p => p.2 == listMax ((typeMapping.map
                  (fun p => (p.1, typeCount p.2 diffs))).map Prod.snd))).map
              Prod.fst).getD "chore") ∧
    determineCommitType [] = "chore" := by
  constructor
  · rw [determineCommitType, selectMax_eq]
    rw [show defaultType = "chore" from rfl]
    rcases Nat.eq_zero_or_pos
        (listMax ((typeMapping.map (fun p => (p.1, typeCount p.2 diffs))).map Prod.snd)) with h0 | hpos
    · rw [if_pos (Nat.le_of_eq h0), if_pos h0]
    · rw [if_neg (by omega), if_neg (by omega)]
  · rfl

/-! ### C6 — per-occurrence versus per-keyword counting -/

/-- The spec's counting policy, modelled from the spec: every occurrence
of every trigger substring in the lower-cased diff texts counts,
including multiple occurrences of the same trigger inside one diff. -/
def specTypeCount (kws : List String) (diffs : List FileDiff) : Nat :=
  (diffs.map (fun d =>
    (kws.map (fun k => countOccC (jsToLower d.diff).data k.data)).sum)).sum

theorem foldl_countIf (P : String → Bool) (kws : List String) (acc : Nat) :
    kws.foldl (fun a k => if P k then a + 1 else a) acc =
      acc + (kws.filter P).length := by
  induction kws generalizing acc with
  | nil => simp
  | cons k t ih =>
    by_cases h : P k
    · simp [List.foldl_cons, h, ih, List.filter_cons]
      omega
    · simp [List.foldl_cons, h, ih, List.filter_cons]

theorem typeCount_eq_sum (kws : List String) (diffs : List FileDiff) :
    typeCount kws diffs =
      (diffs.map (fun d =>
        (kws.filter (fun k => jsIncludes (jsToLower d.diff) k)).length)).sum := by
  have haux : ∀ (l : List FileDiff) (acc : Nat),
      l.foldl (fun acc d =>
        kws.foldl (fun a k => if jsIncludes (jsToLower d.diff) k then a + 1 else a) acc) acc =
      acc + (l.map (fun d =>
        (kws.filter (fun k => jsIncludes (jsToLower d.diff) k)).length)).sum := by
    intro l
    induction l with
    | nil => simp
    | cons d t ih =>
      intro acc
      rw [List.foldl_cons, ih, foldl_countIf (fun k => jsIncludes (jsToLower d.diff) k) kws acc,
        List.map_cons, List.sum_cons]
      omega
  rw [typeCount, haux]
  simp

/-- C6 counterexample: for the single diff text `"fix fix"`, the spec's
per-occurrence count for the `fix` label is 2 (the trigger `fix` occurs
twice), but the code increments the counter at most once per
`(diff, keyword)` pair, giving 1. -/
theorem keyword_count_counterexample :
    typeCount ["fix", "resolve", "bug", "issue"] [⟨"a.ts", "fix fix"⟩] = 1 ∧
    specTypeCount ["fix", "resolve", "bug", "issue"] [⟨"a.ts", "fix fix"⟩] = 2 ∧
    typeCount ["fix", "resolve", "bug", "issue"] [⟨"a.ts", "fix fix"⟩] ≠
      specTypeCount ["fix", "resolve", "bug", "issue"] [⟨"a.ts", "fix fix"⟩] :=
  ⟨rfl, rfl, by decide⟩

/-- C6 (amended): each label's counter equals the number of
`(diff, trigger)` pairs whose lower-cased diff text contains the trigger
at least once — a trigger occurring several times inside one diff still
increments the counter only once, while distinct triggers and distinct
diffs each contribute separately. -/
theorem typeCount_once_per_pair (kws : List String) (diffs : List FileDiff) :
    typeCount kws diffs =
      (diffs.map (fun d =>
        (kws.filter (fun k => jsIncludes (jsToLower d.diff) k)).length)).sum :=
  typeCount_eq_sum kws diffs

/-! ### Facts about the JS Set model -/

theorem jsSetList_foldl_mem (l : List String) :
    ∀ (acc : List String) (x : String),
      (x ∈ l.foldl (fun acc x => if x ∈ acc then acc else acc ++ [x]) acc) ↔
        x ∈ acc ∨ x ∈ l := by
  induction l with
  | nil => simp
  | cons a t ih =>
    intro acc x
    rw [List.foldl_cons, ih]
    by_cases ha : a ∈ acc
    · rw [if_pos ha]
      constructor
      · rintro (h | h)
        · exact Or.inl h
        · exact Or.inr (List.mem_cons_of_mem a h)
      · rintro (h | h)
        · exact Or.inl h
        · rcases List.mem_cons.mp h with rfl | h
          · exact Or.inl ha
          · exact Or.inr h
    · rw [if_neg ha]
      constructor
      · rintro (h | h)
        · rcases List.mem_append.mp h with h | h
          · exact Or.inl h
          · rcases List.mem_singleton.mp h with rfl
            exact Or.inr (List.mem_cons_self x t)
        · exact Or.inr (List.mem_cons_of_mem a h)
      · rintro (h | h)
        · exact Or.inl (List.mem_append_left _ h)
        · rcases List.mem_cons.mp h with rfl | h
          · exact Or.inl (List.mem_append_right _ (List.mem_singleton_self x))
          · exact Or.inr h

theorem jsSetList_mem (l : List String) (x : String) : x ∈ jsSetList l ↔ x ∈ l := by
  rw [jsSetList, jsSetList_foldl_mem]
  simp

theorem jsSetList_foldl_nodup (l : List String) :
    ∀ acc : List String, acc.Nodup →
      (l.foldl (fun acc x => if x ∈ acc then acc else acc ++ [x]) acc).Nodup := by
  induction l with
  | nil => exact fun acc h => h
  | cons a t ih =>
    intro acc h
    rw [List.foldl_cons]
    by_cases ha : a ∈ acc
    · rw [if_pos ha]
      exact ih acc h
    · rw [if_neg ha]
      refine ih _ (List.Nodup.append h (List.nodup_singleton a) ?_)
      intro x hx hxa
      rcases List.mem_singleton.mp hxa with rfl
      exact ha hx

theorem jsSetList_nodup (l : List String) : (jsSetList l).Nodup :=
  jsSetList_foldl_nodup l [] List.nodup_nil

theorem jsSetList_toFinset (l : List String) : (jsSetList l).toFinset = l.toFinset := by
  ext x
  simp [List.mem_toFinset, jsSetList_mem]

theorem jsSetList_length (l : List String) : (jsSetList l).length = l.toFinset.card := by
  rw [← jsSetList_toFinset, List.toFinset_card_of_nodup (jsSetList_nodup l)]

theorem jsSetList_const (l : List String) (e : String) (hne : l ≠ [])
    (h : ∀ x ∈ l, x = e) : jsSetList l = [e] := by
  have haux : ∀ t : List String, (∀ x ∈ t, x = e) →
      t.foldl (fun acc x => if x ∈ acc then acc else acc ++ [x]) [e] = [e] := by
    intro t
    induction t with
    | nil => intro _; rfl
    | cons b t' ih =>
      intro hb
      rw [List.foldl_cons, hb b (List.mem_cons_self b t'),
        if_pos (List.mem_singleton_self e)]
      exact ih (fun x hx => hb x (List.mem_cons_of_mem b hx))
  cases l with
  | nil => exact absurd rfl hne
  | cons a t =>
    have ha : a = e := h a (List.mem_cons_self a t)
    subst ha
    rw [jsSetList, List.foldl_cons, if_neg (List.not_mem_nil a), List.nil_append]
    exact haux t (fun x hx => h x (List.mem_cons_of_mem a hx))

/-! ### C8 — the count policy of the change summary -/

theorem summary_single_ext (diffs : List FileDiff) (e : String) (h5 : 5 < diffs.length)
    (hset : jsSetList (diffs.map (fun d => extension d.file)) = [e]) :
    generateChangeSummary diffs =
      "Update " ++ jsNatToString diffs.length ++ " " ++ e ++ " files" := by
  rw [generateChangeSummary, if_neg (by omega), if_neg (by omega),
    if_neg (show ¬diffs.length ≤ maxChangesForSummary from by
      rw [maxChangesForSummary]; omega)]
  simp only [hset]
  rfl

theorem summary_multi_ext (diffs : List FileDiff) (h5 : 5 < diffs.length)
    (h1 : ¬(jsSetList (diffs.map (fun d => extension d.file))).length = 1) :
    generateChangeSummary diffs =
      "Update " ++ jsNatToString diffs.length ++ " files across " ++
        jsNatToString (jsSetList (diffs.map (fun d => extension d.file))).length ++
        " file types" := by
  rw [generateChangeSummary, if_neg (by omega), if_neg (by omega),
    if_neg (show ¬diffs.length ≤ maxChangesForSummary from by
      rw [maxChangesForSummary]; omega)]
  simp [h1]

/-- C8: `generateChangeSummary` follows the claimed count policy:
no diffs gives the literal `"No changes detected"`; one diff gives
`"Update {path}"` with the full path; 2 to 5 diffs gives the
comma-joined basenames; more than 5 diffs sharing one extension gives
`"Update {count} {ext} files"`; otherwise `"Update {count} files across
{M} file types"` where `M` counts the distinct extensions. -/
theorem summary_count_policy :
    (generateChangeSummary [] = "No changes detected") ∧
    (∀ d : FileDiff, generateChangeSummary [d] = "Update " ++ d.file) ∧
    (∀ diffs : List FileDiff, 2 ≤ diffs.length → diffs.length ≤ 5 →
      generateChangeSummary diffs =
        "Update " ++ jsJoin ", " (diffs.map (fun d => basename d.file))) ∧
    (∀ (diffs : List FileDiff) (e : String), 5 < diffs.length →
      (∀ d ∈ diffs, extension d.file = e) →
      generateChangeSummary diffs =
        "Update " ++ jsNatToString diffs.length ++ " " ++ e ++ " files") ∧
    (∀ diffs : List FileDiff, 5 < diffs.length →
      2 ≤ (jsSetList (diffs.map (fun d => extension d.file))).length →
      generateChangeSummary diffs =
        "Update " ++ jsNatToString diffs.length ++ " files across " ++
          jsNatToString (jsSetList (diffs.map (fun d => extension d.file))).length ++
          " file types") := by
  refine ⟨rfl, fun d => rfl, fun diffs h2 h5 => ?_, fun diffs e h5 hall => ?_,
    fun diffs h5 hM => ?_⟩
  · rw [generateChangeSummary, if_neg (by omega), if_neg (by omega),
      if_pos (show diffs.length ≤ maxChangesForSummary from h5)]
  · have hset : jsSetList (diffs.map (fun d => extension d.file)) = [e] := by
      apply jsSetList_const
      · intro hmap
        have hd : diffs = [] := List.map_eq_nil_iff.mp hmap
        subst hd
        simp at h5
      · intro x hx
        obtain ⟨d, hd, rfl⟩ := List.mem_map.mp hx
        exact hall d hd
    exact summary_single_ext diffs e h5 hset
  · exact summary_multi_ext diffs h5 (by omega)

/-- Witness for C8: the policy at concrete inputs — two diffs join the
basenames, seven `.ts` diffs give `"Update 7 ts files"`, and six mixed
diffs give `"Update 6 files across 3 file types"`. -/
theorem summary_count_policy_witness :
    generateChangeSummary [⟨"src/a.ts", "x"⟩, ⟨"b.md", "y"⟩] = "Update a.ts, b.md" ∧
    generateChangeSummary
      [⟨"a0.ts", "x"⟩, ⟨"a1.ts", "x"⟩, ⟨"a2.ts", "x"⟩, ⟨"a3.ts", "x"⟩,
       ⟨"a4.ts", "x"⟩, ⟨"a5.ts", "x"⟩, ⟨"a6.ts", "x"⟩] = "Update 7 ts files" ∧
    generateChangeSummary
      [⟨"Makefile", "x"⟩, ⟨"Dockerfile", "x"⟩, ⟨"a.ts", "x"⟩,
       ⟨"b.ts", "x"⟩, ⟨"c.ts", "x"⟩, ⟨"d.ts", "x"⟩] =
      "Update 6 files across 3 file types" :=
  ⟨((summary_count_policy.2.2.1 [⟨"src/a.ts", "x"⟩, ⟨"b.md", "y"⟩]
      (by decide) (by decide)).trans (by rfl)),
   ((summary_count_policy.2.2.2.1
      [⟨"a0.ts", "x"⟩, ⟨"a1.ts", "x"⟩, ⟨"a2.ts", "x"⟩, ⟨"a3.ts", "x"⟩,
       ⟨"a4.ts", "x"⟩, ⟨"a5.ts", "x"⟩, ⟨"a6.ts", "x"⟩] "ts"
      (by decide) (by decide)).trans (by rfl)),
   ((summary_count_policy.2.2.2.2
      [⟨"Makefile", "x"⟩, ⟨"Dockerfile", "x"⟩, ⟨"a.ts", "x"⟩,
       ⟨"b.ts", "x"⟩, ⟨"c.ts", "x"⟩, ⟨"d.ts", "x"⟩]
      (by decide) (by decide)).trans (by rfl))⟩

/-! ### C9 — order independence of the aggregations -/

theorem foldl_add_int (f : FileDiff → Int) (l : List FileDiff) (acc : Int) :
    l.foldl (fun a d => a + f d) acc = acc + (l.map f).sum := by
  induction l generalizing acc with
  | nil => simp
  | cons d t ih =>
    rw [List.foldl_cons, ih, List.map_cons, List.sum_cons]
    ring

theorem typeCount_perm (kws : List String) {l₁ l₂ : List FileDiff}
    (hp : List.Perm l₁ l₂) : typeCount kws l₁ = typeCount kws l₂ := by
  rw [typeCount_eq_sum, typeCount_eq_sum]
  exact (hp.map _).sum_eq

theorem determineCommitType_perm {l₁ l₂ : List FileDiff} (hp : List.Perm l₁ l₂) :
    determineCommitType l₁ = determineCommitType l₂ := by
  unfold determineCommitType
  have h : typeMapping.map (fun p => (p.1, typeCount p.2 l₁)) =
      typeMapping.map (fun p => (p.1, typeCount p.2 l₂)) :=
    List.map_congr_left (fun p _ => by rw [typeCount_perm p.2 hp])
  rw [h]

theorem totalAdditions_perm {l₁ l₂ : List FileDiff} (hp : List.Perm l₁ l₂) :
    totalAdditions l₁ = totalAdditions l₂ := by
  rw [totalAdditions, totalAdditions,
    foldl_add_int (fun d => addedLines d.diff) l₁ 0,
    foldl_add_int (fun d => addedLines d.diff) l₂ 0,
    (hp.map (fun d => addedLines d.diff)).sum_eq]

theorem totalDeletions_perm {l₁ l₂ : List FileDiff} (hp : List.Perm l₁ l₂) :
    totalDeletions l₁ = totalDeletions l₂ := by
  rw [totalDeletions, totalDeletions,
    foldl_add_int (fun d => removedLines d.diff) l₁ 0,
    foldl_add_int (fun d => removedLines d.diff) l₂ 0,
    (hp.map (fun d => removedLines d.diff)).sum_eq]

/-- C9 counterexample: the two-diff summary depends on the input order —
permuting `[a.ts, b.md]` changes the comma-joined basenames, so
`summarizeChangeSet` is not invariant under reordering. -/
theorem order_dependence_counterexample :
    List.Perm [(⟨"a.ts", "x"⟩ : FileDiff), ⟨"b.md", "y"⟩]
      [⟨"b.md", "y"⟩, ⟨"a.ts", "x"⟩] ∧
    generateChangeSummary [(⟨"a.ts", "x"⟩ : FileDiff), ⟨"b.md", "y"⟩] =
      "Update a.ts, b.md" ∧
    generateChangeSummary [(⟨"b.md", "y"⟩ : FileDiff), ⟨"a.ts", "x"⟩] =
      "Update b.md, a.ts" ∧
    ("Update a.ts, b.md" : String) ≠ "Update b.md, a.ts" :=
  ⟨List.Perm.swap _ _ _, rfl, rfl, by decide⟩

/-- C9 (amended): the classifier and the aggregated addition/deletion
totals are invariant under any permutation of the diff list, and the
change summary is invariant when the diff count is 0, 1, or above the
threshold 5; in the 2-to-5 range the summary joins basenames in input
order and is therefore order-dependent. -/
theorem order_independence (l₁ l₂ : List FileDiff) (hp : List.Perm l₁ l₂) :
    determineCommitType l₁ = determineCommitType l₂ ∧
    totalAdditions l₁ = totalAdditions l₂ ∧
    totalDeletions l₁ = totalDeletions l₂ ∧
    (l₁.length ≤ 1 ∨ 5 < l₁.length →
      generateChangeSummary l₁ = generateChangeSummary l₂) := by
  refine ⟨determineCommitType_perm hp, totalAdditions_perm hp,
    totalDeletions_perm hp, ?_⟩
  intro hlen
  rcases hlen with hle | hgt
  · have heq : l₁ = l₂ := by
      cases l₁ with
      | nil => exact (List.Perm.nil_eq hp).symm ▸ rfl
      | cons d t =>
        cases t with
        | nil => exact List.singleton_perm.mp hp
        | cons d' t' => simp at hle
    rw [heq]
  · have hn : l₂.length = l₁.length := hp.length_eq.symm
    have hS : (jsSetList (l₂.map (fun d => extension d.file))).length =
        (jsSetList (l₁.map (fun d => extension d.file))).length := by
      rw [jsSetList_length, jsSetList_length,
        List.toFinset_eq_of_perm _ _ (hp.map (fun d => extension d.file))]
    by_cases hone : (jsSetList (l₁.map (fun d => extension d.file))).length = 1
    · obtain ⟨e, he⟩ := List.length_eq_one.mp hone
      obtain ⟨e', he'⟩ := List.length_eq_one.mp (hS.trans hone)
      have hee : e' = e := by
        have hm : e' ∈ jsSetList (l₂.map (fun d => extension d.file)) := by
          rw [he']
          exact List.mem_singleton_self e'
        have hm₂ : e' ∈ l₁.map (fun d => extension d.file) :=
          (hp.map (fun d => extension d.file)).mem_iff.mpr
            ((jsSetList_mem _ e').mp hm)
        have : e' ∈ jsSetList (l₁.map (fun d => extension d.file)) :=
          (jsSetList_mem _ e').mpr hm₂
        rw [he] at this
        exact List.mem_singleton.mp this
      rw [summary_single_ext l₁ e hgt he,
        summary_single_ext l₂ e (by omega) (hee ▸ he'), hn]
    · rw [summary_multi_ext l₁ hgt hone,
        summary_multi_ext l₂ (by omega) (fun hx => hone (hS.symm.trans hx))]
      rw [hn, hS]

/-- Witness for C9: a concrete six-diff list and its reversal give the
same classification and the same above-threshold summary. -/
theorem order_independence_witness :
    determineCommitType
      [⟨"Makefile", "fix bug"⟩, ⟨"Dockerfile", "add"⟩, ⟨"a.ts", "x"⟩,
       ⟨"b.ts", "y"⟩, ⟨"c.ts", "z"⟩, ⟨"d.ts", "w"⟩] =
    determineCommitType
      ([⟨"Makefile", "fix bug"⟩, ⟨"Dockerfile", "add"⟩, ⟨"a.ts", "x"⟩,
        ⟨"b.ts", "y"⟩, ⟨"c.ts", "z"⟩, ⟨"d.ts", "w"⟩] : List FileDiff).reverse ∧
    generateChangeSummary
      [⟨"Makefile", "fix bug"⟩, ⟨"Dockerfile", "add"⟩, ⟨"a.ts", "x"⟩,
       ⟨"b.ts", "y"⟩, ⟨"c.ts", "z"⟩, ⟨"d.ts", "w"⟩] =
    generateChangeSummary
      ([⟨"Makefile", "fix bug"⟩, ⟨"Dockerfile", "add"⟩, ⟨"a.ts", "x"⟩,
        ⟨"b.ts", "y"⟩, ⟨"c.ts", "z"⟩, ⟨"d.ts", "w"⟩] : List FileDiff).reverse :=
  have h := order_independence
    [⟨"Makefile", "fix bug"⟩, ⟨"Dockerfile", "add"⟩, ⟨"a.ts", "x"⟩,
     ⟨"b.ts", "y"⟩, ⟨"c.ts", "z"⟩, ⟨"d.ts", "w"⟩]
    ([⟨"Makefile", "fix bug"⟩, ⟨"Dockerfile", "add"⟩, ⟨"a.ts", "x"⟩,
      ⟨"b.ts", "y"⟩, ⟨"c.ts", "z"⟩, ⟨"d.ts", "w"⟩] : List FileDiff).reverse
    (List.reverse_perm _).symm
  ⟨h.1, h.2.2.2 (Or.inr (by decide))⟩

/-! ### C4 — machinery for counting heading lines in the document -/

/-- Character list of the subsection heading line `### p`. -/
def headingData (p : String) : List Char := '#' :: '#' :: '#' :: ' ' :: p.data

theorem headingData_eq (p : String) : ("### " ++ p).data = headingData p := rfl

/-- Prepend a whole character list to the first group of a split. -/
def consHeadList (A : List Char) : List (List Char) → List (List Char)
  | [] => [A]
  | g :: gs => (A ++ g) :: gs

theorem consHeadList_cons (A : List Char) (g : List Char) (gs : List (List Char)) :
    consHeadList A (g :: gs) = (A ++ g) :: gs := rfl

theorem splitC_cons_ne (c a : Char) (l : List Char) (h : ¬a = c) :
    splitC c (a :: l) = consHead a (splitC c l) := by
  simp [splitC, h]

theorem consHead_cons (a : Char) (g : List Char) (gs : List (List Char)) :
    consHead a (g :: gs) = (a :: g) :: gs := rfl

theorem consHead_consHeadList (a : Char) (A : List Char) (S : List (List Char)) :
    consHead a (consHeadList A S) = consHeadList (a :: A) S := by
  cases S <;> rfl

theorem splitC_append_left (c : Char) (A l : List Char) (h : c ∉ A) :
    splitC c (A ++ l) = consHeadList A (splitC c l) := by
  induction A with
  | nil =>
    rw [List.nil_append]
    rcases hS : splitC c l with _ | ⟨g, gs⟩
    · exact absurd hS (splitC_ne_nil c l)
    · rw [consHeadList_cons, List.nil_append]
  | cons a A' ih =>
    have ha : ¬a = c := fun hac => h (hac ▸ List.mem_cons_self a A')
    have hA : c ∉ A' := fun hc => h (List.mem_cons_of_mem a hc)
    rw [List.cons_append, splitC_cons_ne c a _ ha, ih hA, consHead_consHeadList]

theorem count_splitC_nil (p : String) :
    (splitC '\n' ([] : List Char)).count (headingData p) = 0 := rfl

theorem digitChar_ne_newline (k : Nat) : digitChar k ≠ '\n' := by
  rcases k with _|_|_|_|_|_|_|_|_|k <;>
    first
      | decide
      | exact (by decide : ('9' : Char) ≠ '\n')

theorem digitChar_ne_hash (k : Nat) : digitChar k ≠ '#' := by
  rcases k with _|_|_|_|_|_|_|_|_|k <;>
    first
      | decide
      | exact (by decide : ('9' : Char) ≠ '#')

theorem no_newline_natDigitsAux (fuel : Nat) : ∀ n : Nat, '\n' ∉ natDigitsAux fuel n := by
  induction fuel with
  | zero => intro n; simp [natDigitsAux]
  | succ f ih =>
    intro n
    rw [natDigitsAux]
    by_cases h : n < 10
    · rw [if_pos h]
      intro hm
      exact digitChar_ne_newline n (List.mem_singleton.mp hm).symm
    · rw [if_neg h]
      intro hm
      rcases List.mem_append.mp hm with hm | hm
      · exact ih _ hm
      · exact digitChar_ne_newline _ (List.mem_singleton.mp hm).symm

theorem no_newline_jsNat (n : Nat) : '\n' ∉ (jsNatToString n).data :=
  no_newline_natDigitsAux _ n

theorem no_newline_jsInt (i : Int) : '\n' ∉ (jsIntToString i).data := by
  rw [jsIntToString]
  split
  · rw [data_append]
    intro hm
    rcases List.mem_append.mp hm with hm | hm
    · simp at hm
    · exact no_newline_jsNat _ hm
  · exact no_newline_jsNat _

theorem natDigitsAux_head (fuel : Nat) : ∀ n : Nat, (natDigitsAux fuel n).head? ≠ some '#' := by
  induction fuel with
  | zero => intro n; simp [natDigitsAux]
  | succ f ih =>
    intro n
    rw [natDigitsAux]
    by_cases h : n < 10
    · rw [if_pos h]
      intro hm
      exact digitChar_ne_hash n (Option.some.inj hm)
    · rw [if_neg h]
      rcases hA : natDigitsAux f (n / 10) with _ | ⟨a, t⟩
      · rw [List.nil_append]
        intro hm
        exact digitChar_ne_hash _ (Option.some.inj hm)
      · rw [List.cons_append]
        intro hm
        have := ih (n / 10)
        rw [hA] at this
        exact this hm

theorem jsInt_head (i : Int) : (jsIntToString i).data.head? ≠ some '#' := by
  rw [jsIntToString]
  split
  · rw [data_append]
    intro hm
    simp at hm
  · exact natDigitsAux_head _ _

theorem no_newline_append {s t : String} (hs : '\n' ∉ s.data) (ht : '\n' ∉ t.data) :
    '\n' ∉ (s ++ t).data := by
  rw [data_append]
  intro hm
  rcases List.mem_append.mp hm with hm | hm
  exacts [hs hm, ht hm]

theorem head_append_ne_hash {l r : List Char} (hl : l.head? ≠ some '#')
    (hr : r.head? ≠ some '#') : (l ++ r).head? ≠ some '#' := by
  cases l with
  | nil => simpa using hr
  | cons a t => simpa using hl

theorem ne_heading_of_head (q : List Char) (h : q.head? ≠ some '#') (p : String) :
    q ≠ headingData p := fun he => h (by rw [he]; rfl)

theorem ne_heading_of_take (q : List Char) (h : q.take 4 ≠ ['#', '#', '#', ' ']) (p : String) :
    q ≠ headingData p := fun he => h (by rw [he]; rfl)

theorem count_zero_of_head (p : String) :
    ∀ L : List (List Char), (∀ l ∈ L, l.head? ≠ some '#') →
      L.count (headingData p) = 0 := by
  intro L
  induction L with
  | nil => intro _; rfl
  | cons a t ih =>
    intro h
    rw [List.count_cons, ih (fun l hl => h l (List.mem_cons_of_mem a hl))]
    rw [if_neg (by
      simp only [beq_iff_eq]
      exact ne_heading_of_head a (h a (List.mem_cons_self a t)) p)]

theorem no_newline_jsJoin (sep : String) (hsep : '\n' ∉ sep.data) :
    ∀ l : List String, (∀ s ∈ l, '\n' ∉ s.data) → '\n' ∉ (jsJoin sep l).data := by
  intro l
  induction l with
  | nil => intro _; simp [jsJoin]
  | cons x xs ih =>
    intro h
    cases xs with
    | nil => exact h x (List.mem_cons_self x [])
    | cons y ys =>
      exact no_newline_append
        (no_newline_append (h x (List.mem_cons_self x (y :: ys))) hsep)
        (ih (fun s hs => h s (List.mem_cons_of_mem x hs)))

theorem jsPop_jsSplit_mem (c : Char) (p : String) :
    ∃ g ∈ splitC c p.data, jsPop (jsSplit c p) = String.mk g := by
  obtain ⟨g₀, gs, hS⟩ : ∃ g₀ gs, splitC c p.data = g₀ :: gs := by
    cases hS' : splitC c p.data with
    | nil => exact absurd hS' (splitC_ne_nil c p.data)
    | cons g₀ gs => exact ⟨g₀, gs, rfl⟩
  refine ⟨(g₀ :: gs).getLast (by simp), ?_, ?_⟩
  · rw [hS]
    exact List.getLast_mem _
  · rw [jsPop, jsSplit, hS, List.getLastD_eq_getLast?, List.getLast?_map,
      List.getLast?_eq_getLast _ (by simp)]
    rfl

theorem no_newline_basename (p : String) (h : '\n' ∉ p.data) :
    '\n' ∉ (basename p).data := by
  obtain ⟨g, hg, he⟩ := jsPop_jsSplit_mem '/' p
  rw [basename, he]
  intro hx
  exact h (mem_of_mem_splitC hg hx)

theorem no_newline_extension (p : String) (h : '\n' ∉ p.data) :
    '\n' ∉ (extension p).data := by
  obtain ⟨g, hg, he⟩ := jsPop_jsSplit_mem '.' p
  rw [extension, he]
  intro hx
  exact h (mem_of_mem_splitC hg hx)

theorem no_newline_summary (diffs : List FileDiff)
    (h : ∀ d ∈ diffs, '\n' ∉ d.file.data) :
    '\n' ∉ (generateChangeSummary diffs).data := by
  rw [generateChangeSummary]
  by_cases h0 : diffs.length = 0
  · rw [if_pos h0]; decide
  rw [if_neg h0]
  by_cases h1 : diffs.length = 1
  · rw [if_pos h1]
    refine no_newline_append (by decide) ?_
    cases diffs with
    | nil => simp at h0
    | cons d t => exact h d (List.mem_cons_self d t)
  rw [if_neg h1]
  by_cases h5 : diffs.length ≤ maxChangesForSummary
  · rw [if_pos h5]
    refine no_newline_append (by decide) ?_
    refine no_newline_jsJoin ", " (by decide) _ ?_
    intro s hs
    obtain ⟨d, hd, rfl⟩ := List.mem_map.mp hs
    exact no_newline_basename d.file (h d hd)
  rw [if_neg h5]
  have hgen : ∀ L : List String, (∀ s ∈ L, '\n' ∉ s.data) →
      '\n' ∉ (if L.length = 1 then
          "Update " ++ jsNatToString diffs.length ++ " " ++ L.headD "" ++ " files"
        else
          "Update " ++ jsNatToString diffs.length ++ " files across " ++
            jsNatToString L.length ++ " file types").data := by
    intro L hL
    split
    · refine no_newline_append (no_newline_append (no_newline_append
        (no_newline_append (by decide) (no_newline_jsNat _)) (by decide)) ?_) (by decide)
      cases L with
      | nil => simp
      | cons e es => exact hL e (List.mem_cons_self e es)
    · exact no_newline_append (no_newline_append (no_newline_append
        (no_newline_append (by decide) (no_newline_jsNat _)) (by decide))
        (no_newline_jsNat _)) (by decide)
  refine hgen (jsSetList (diffs.map fun d => extension d.file)) ?_
  intro s hs
  obtain ⟨d, hd, rfl⟩ := List.mem_map.mp ((jsSetList_mem _ s).mp hs)
  exact no_newline_extension d.file (h d hd)

theorem selectMax_mem : ∀ (L : List (String × Nat)) (m : Nat) (t : String),
    selectMax L m t ∈ t :: L.map Prod.fst := by
  intro L
  induction L with
  | nil => intro m t; exact List.mem_cons_self t []
  | cons hd rest ih =>
    intro m t
    obtain ⟨ty, c⟩ := hd
    by_cases hc : c > m
    · rw [show selectMax ((ty, c) :: rest) m t = selectMax rest c ty from by
        simp [selectMax, hc]]
      rcases List.mem_cons.mp (ih c ty) with he | hmem
      · rw [he]
        exact List.mem_cons_of_mem t (List.mem_cons_self ty _)
      · exact List.mem_cons_of_mem t (List.mem_cons_of_mem ty hmem)
    · rw [show selectMax ((ty, c) :: rest) m t = selectMax rest m t from by
        simp [selectMax, hc]]
      rcases List.mem_cons.mp (ih m t) with he | hmem
      · rw [he]
        exact List.mem_cons_self t _
      · exact List.mem_cons_of_mem t (List.mem_cons_of_mem ty hmem)

theorem determineCommitType_mem (diffs : List FileDiff) :
    determineCommitType diffs ∈
      ["feat", "fix", "docs", "style", "refactor", "test", "chore"] := by
  have h := selectMax_mem (typeMapping.map (fun p => (p.1, typeCount p.2 diffs))) 0 defaultType
  rw [List.map_map] at h
  rw [determineCommitType]
  rcases List.mem_cons.mp h with he | hmem
  · rw [he]
    decide
  · have hmap : (typeMapping.map (Prod.fst ∘ fun p => (p.1, typeCount p.2 diffs))) =
        ["feat", "fix", "docs", "style", "refactor", "test", "chore"] := rfl
    rw [hmap] at hmem
    exact hmem

theorem commitType_cases (diffs : List FileDiff) :
    '\n' ∉ (determineCommitType diffs).data ∧
      (determineCommitType diffs).data.head? ≠ some '#' := by
  have h := determineCommitType_mem diffs
  simp only [List.mem_cons, List.not_mem_nil, or_false] at h
  rcases h with h|h|h|h|h|h|h <;> rw [h] <;> exact ⟨by decide, by decide⟩

theorem head_append_left {l r : List Char} (hl : l.head? ≠ some '#') (hln : l ≠ []) :
    (l ++ r).head? ≠ some '#' := by
  cases l with
  | nil => exact absurd rfl hln
  | cons a t => simpa using hl

theorem heading_inj (f p : String) :
    (('#' :: '#' :: '#' :: ' ' :: f.data) = headingData p) ↔ f = p := by
  rw [headingData]
  constructor
  · intro he
    have hd : f.data = p.data := by simpa using he
    exact String.ext hd
  · rintro rfl
    rfl

theorem details_line_ne (p : String) (hpd : p ≠ "Details") :
    ("### Details" : String).data ≠ headingData p := by
  intro he
  have h2 : ('#' :: '#' :: '#' :: ' ' :: ("Details" : String).data) = headingData p := he
  exact hpd ((heading_inj "Details" p).mp h2).symm

theorem title_line_ne (X : List Char) (p : String) :
    (("# " : String).data ++ X) ≠ headingData p := by
  intro he
  rw [show ("# " : String).data = ['#', ' '] from rfl, headingData] at he
  simp at he

theorem splitC_jsJoin (l : List String) (hl : l ≠ []) :
    splitC '\n' (jsJoin "\n" l).data =
      (l.map (fun s => splitC '\n' s.data)).flatten := by
  induction l with
  | nil => exact absurd rfl hl
  | cons x xs ih =>
    cases xs with
    | nil => simp [jsJoin]
    | cons y ys =>
      have hdata : (jsJoin "\n" (x :: y :: ys)).data =
          x.data ++ '\n' :: (jsJoin "\n" (y :: ys)).data := by
        show ((x ++ "\n") ++ jsJoin "\n" (y :: ys)).data = _
        rw [data_append, data_append, show ("\n" : String).data = ['\n'] from rfl]
        simp
      rw [hdata, splitC_append_cons, ih (by simp)]
      simp

theorem summary_head (diffs : List FileDiff) :
    (generateChangeSummary diffs).data.head? ≠ some '#' := by
  rw [generateChangeSummary]
  by_cases h0 : diffs.length = 0
  · rw [if_pos h0]; decide
  rw [if_neg h0]
  by_cases h1 : diffs.length = 1
  · rw [if_pos h1]
    simp only [data_append, List.append_assoc]
    exact head_append_left (by decide) (by decide)
  rw [if_neg h1]
  by_cases h5 : diffs.length ≤ maxChangesForSummary
  · rw [if_pos h5]
    simp only [data_append, List.append_assoc]
    exact head_append_left (by decide) (by decide)
  rw [if_neg h5]
  have hgen : ∀ L : List String,
      ((if L.length = 1 then
          "Update " ++ jsNatToString diffs.length ++ " " ++ L.headD "" ++ " files"
        else
          "Update " ++ jsNatToString diffs.length ++ " files across " ++
            jsNatToString L.length ++ " file types")).data.head? ≠ some '#' := by
    intro L
    split <;>
      · simp only [data_append, List.append_assoc]
        exact head_append_left (by decide) (by decide)
  exact hgen (jsSetList (diffs.map fun d => extension d.file))

theorem no_newline_msg (diffs : List FileDiff)
    (h : ∀ d ∈ diffs, '\n' ∉ d.file.data) :
    '\n' ∉ ((composeCommitMessage diffs none none).commitMessage).data := by
  show '\n' ∉ ((determineCommitType diffs ++ ": ") ++ generateChangeSummary diffs).data
  exact no_newline_append
    (no_newline_append (commitType_cases diffs).1 (by decide))
    (no_newline_summary diffs h)

theorem msg_ne (diffs : List FileDiff) (p : String) :
    ((composeCommitMessage diffs none none).commitMessage).data ≠ headingData p := by
  apply ne_heading_of_head
  show ((determineCommitType diffs ++ ": ") ++ generateChangeSummary diffs).data.head? ≠
    some '#'
  simp only [data_append, List.append_assoc]
  exact head_append_ne_hash (commitType_cases diffs).2
    (head_append_left (by decide) (by decide))

theorem no_newline_detLine (d : FileDiff) (hf : '\n' ∉ d.file.data) :
    '\n' ∉ (d.file ++ ": +" ++ jsIntToString (addedLines d.diff) ++ " -" ++
      jsIntToString (removedLines d.diff)).data :=
  no_newline_append (no_newline_append (no_newline_append
    (no_newline_append hf (by decide)) (no_newline_jsInt _)) (by decide))
    (no_newline_jsInt _)

theorem detLine_ne (d : FileDiff) (hh : d.file.data.head? ≠ some '#') (p : String) :
    (d.file ++ ": +" ++ jsIntToString (addedLines d.diff) ++ " -" ++
      jsIntToString (removedLines d.diff)).data ≠ headingData p := by
  apply ne_heading_of_head
  simp only [data_append, List.append_assoc]
  exact head_append_ne_hash hh
    (head_append_left (by decide) (by decide))

theorem count_details (diffs : List FileDiff) (p : String) (hne : diffs ≠ [])
    (hfiles : ∀ d ∈ diffs, '\n' ∉ d.file.data ∧ d.file.data.head? ≠ some '#') :
    (splitC '\n' (generateCommitDetails diffs).data).count (headingData p) = 0 := by
  rw [generateCommitDetails,
    if_neg (fun h => hne (List.length_eq_zero.mp h)),
    splitC_jsJoin _ (by simp [hne]), List.map_map, List.count_flatten]
  apply List.sum_eq_zero
  intro x hx
  rw [List.mem_map] at hx
  obtain ⟨g, hg, rfl⟩ := hx
  rw [List.mem_map] at hg
  obtain ⟨d, hd, rfl⟩ := hg
  rw [Function.comp_apply,
    splitC_single '\n' _ (no_newline_detLine d (hfiles d hd).1)]
  rw [List.count_cons, List.count_nil, if_neg (by
    simp only [beq_iff_eq]
    exact detLine_ne d (hfiles d hd).2 p)]
  rfl

theorem dataLit_heading : ("### " : String).data = '#' :: '#' :: '#' :: [' '] := rfl

theorem dataLit_diffOpen : ("\n\n```diff\n" : String).data =
    '\n' :: '\n' :: (("```diff" : String).data ++ ['\n']) := rfl

theorem dataLit_closeFence : ("\n```\n" : String).data =
    '\n' :: (("```" : String).data ++ ['\n']) := rfl

theorem dataLit_cmOpen : ("\n## Commit Message\n\n```\n" : String).data =
    '\n' :: (("## Commit Message" : String).data ++
      ('\n' :: '\n' :: (("```" : String).data ++ ['\n']))) := rfl

theorem dataLit_detailsMid : ("\n```\n\n### Details\n\n```\n" : String).data =
    '\n' :: (("```" : String).data ++
      ('\n' :: '\n' :: (("### Details" : String).data ++
        ('\n' :: '\n' :: (("```" : String).data ++ ['\n']))))) := rfl

theorem dataLit_fcOpen : ("\n## File Changes\n\n" : String).data =
    '\n' :: (("## File Changes" : String).data ++ ['\n', '\n']) := rfl

theorem dataLit_genOpen : ("\n\n*Generated on: " : String).data =
    '\n' :: '\n' :: ("*Generated on: " : String).data := rfl

theorem dataLit_genClose : ("*\n\n" : String).data = '*' :: '\n' :: ['\n'] := rfl

theorem dataLit_nl : ("\n" : String).data = ['\n'] := rfl

theorem count_block (d : FileDiff) (p : String)
    (hf : '\n' ∉ d.file.data)
    (hd : ∀ l ∈ splitC '\n' d.diff.data, l.head? ≠ some '#') :
    (splitC '\n' (blockStr d).data).count (headingData p) =
      if d.file = p then 1 else 0 := by
  have hform : splitC '\n' (blockStr d).data =
      ('#' :: '#' :: '#' :: ' ' :: d.file.data) :: [] :: ("```diff" : String).data ::
        (splitC '\n' d.diff.data ++ [("```" : String).data, []]) := by
    simp only [blockStr, data_append, List.append_assoc, List.cons_append,
      List.nil_append]
    simp +decide [splitC_cons_ne, splitC_cons_self, splitC_append_cons,
      splitC_single '\n' d.file.data hf, splitC_nil, consHead_cons]
  rw [hform]
  simp only [List.count_cons, List.count_append, List.count_nil, beq_iff_eq,
    count_zero_of_head p _ hd]
  rw [if_neg (show ¬(([] : List Char) = headingData p) from by simp [headingData]),
    if_neg (ne_heading_of_take ("```diff" : String).data (by decide) p),
    if_neg (ne_heading_of_take ("```" : String).data (by decide) p)]
  by_cases hfp : d.file = p
  · rw [if_pos ((heading_inj d.file p).mpr hfp), if_pos hfp]
  · rw [if_neg (fun hh => hfp ((heading_inj d.file p).mp hh)), if_neg hfp]

theorem sum_indicator_count (diffs : List FileDiff) (p : String) :
    (diffs.map (fun d => if d.file = p then 1 else 0)).sum =
      (diffs.map FileDiff.file).count p := by
  induction diffs with
  | nil => rfl
  | cons d t ih =>
    rw [List.map_cons, List.sum_cons, List.map_cons, List.count_cons, ih]
    by_cases h : d.file = p
    · rw [if_pos h, if_pos (beq_iff_eq.mpr h)]
      omega
    · rw [if_neg h, if_neg (fun hb => h (beq_iff_eq.mp hb))]
      omega

theorem count_blocks (diffs : List FileDiff) (p : String) (hne : diffs ≠ [])
    (hfiles : ∀ d ∈ diffs, '\n' ∉ d.file.data)
    (hdiffs : ∀ d ∈ diffs, ∀ l ∈ splitC '\n' d.diff.data, l.head? ≠ some '#') :
    (splitC '\n' (jsJoin "\n" (diffs.map blockStr)).data).count (headingData p) =
      (diffs.map FileDiff.file).count p := by
  rw [splitC_jsJoin _ (by simp [hne]), List.map_map, List.count_flatten, List.map_map]
  have hmap : diffs.map (List.count (headingData p) ∘ ((fun s => splitC '\n' s.data) ∘ blockStr)) =
      diffs.map (fun d => if d.file = p then 1 else 0) := by
    apply List.map_congr_left
    intro d hd
    rw [Function.comp_apply, Function.comp_apply]
    exact count_block d p (hfiles d hd) (hdiffs d hd)
  rw [hmap, sum_indicator_count]

theorem ts_line_ne (X : List Char) (p : String) :
    (("*Generated on: " : String).data ++ X) ≠ headingData p :=
  ne_heading_of_head _ (head_append_left (by decide) (by decide)) p

theorem hash_sp_line_ne (X : List Char) (p : String) : ('#' :: ' ' :: X) ≠ headingData p := by
  intro he
  rw [headingData] at he
  simp at he

theorem nil_line_ne (p : String) : ([] : List Char) ≠ headingData p := by
  simp [headingData]

theorem count_docHead (title ts : String) (p : String) (S : List Char)
    (htitle : '\n' ∉ title.data) (hts : '\n' ∉ ts.data) :
    (splitC '\n'
        (("# " ++ title ++ "\n\n*Generated on: " ++ ts ++ "*\n\n").data ++ S)).count
      (headingData p) = (splitC '\n' S).count (headingData p) := by
  have hform : splitC '\n' (("# " ++ title ++ "\n\n*Generated on: " ++ ts ++ "*\n\n").data ++ S) =
      ('#' :: ' ' :: title.data) :: [] ::
        (("*Generated on: " : String).data ++ (ts.data ++ ['*'])) :: [] :: splitC '\n' S := by
    simp only [data_append, List.append_assoc, List.cons_append, List.nil_append]
    simp +decide [splitC_cons_ne, splitC_cons_self, splitC_append_cons,
      splitC_single '\n' title.data htitle,
      (fun l => splitC_append_left '\n' ts.data l hts),
      splitC_nil, consHead_cons, consHeadList_cons, consHead_consHeadList]
  rw [hform]
  simp only [List.count_cons, beq_iff_eq]
  rw [if_neg (show ¬(([] : List Char) = headingData p) from nil_line_ne p),
    if_neg (show ¬((['*', 'G', 'e', 'n', 'e', 'r', 'a', 't', 'e', 'd', ' ', 'o', 'n', ':', ' '] ++
        (ts.data ++ ['*'])) = headingData p) from ts_line_ne (ts.data ++ ['*']) p),
    if_neg (hash_sp_line_ne title.data p)]
  omega

theorem count_cmSection (diffs : List FileDiff) (p : String) (S : List Char)
    (hne : diffs ≠ [])
    (hfiles2 : ∀ d ∈ diffs, '\n' ∉ d.file.data ∧ d.file.data.head? ≠ some '#')
    (hpd : p ≠ "Details") :
    (splitC '\n' ((commitMessageSectionStr diffs).data ++ S)).count (headingData p) =
      (splitC '\n' S).count (headingData p) := by
  have hmsg := no_newline_msg diffs (fun d hd => (hfiles2 d hd).1)
  have hform : splitC '\n' ((commitMessageSectionStr diffs).data ++ S) =
      [] :: ("## Commit Message" : String).data :: [] :: ("```" : String).data ::
        ((composeCommitMessage diffs none none).commitMessage).data ::
        ("```" : String).data :: [] :: ("### Details" : String).data :: [] ::
        ("```" : String).data ::
        (splitC '\n' ((composeCommitMessage diffs none none).details).data ++
          (("```" : String).data :: splitC '\n' S)) := by
    simp only [commitMessageSectionStr, data_append, List.append_assoc,
      List.cons_append, List.nil_append]
    simp +decide [splitC_cons_ne, splitC_cons_self, splitC_append_cons,
      splitC_single '\n' _ hmsg, splitC_nil, consHead_cons]
  rw [hform]
  simp only [List.count_cons, List.count_append, beq_iff_eq]
  rw [show ((composeCommitMessage diffs none none).details) = generateCommitDetails diffs
      from rfl,
    count_details diffs p hne hfiles2,
    if_neg (show ¬(([] : List Char) = headingData p) from nil_line_ne p),
    if_neg (show ¬((['`', '`', '`'] : List Char) = headingData p) from
      ne_heading_of_take ['`', '`', '`'] (by decide) p),
    if_neg (show ¬((['#', '#', '#', ' ', 'D', 'e', 't', 'a', 'i', 'l', 's'] : List Char) =
        headingData p) from details_line_ne p hpd),
    if_neg (msg_ne diffs p),
    if_neg (show ¬((['#', '#', ' ', 'C', 'o', 'm', 'm', 'i', 't', ' ', 'M', 'e', 's', 's', 'a',
        'g', 'e'] : List Char) = headingData p) from
      ne_heading_of_take ['#', '#', ' ', 'C', 'o', 'm', 'm', 'i', 't', ' ', 'M', 'e', 's', 's',
        'a', 'g', 'e'] (by decide) p)]
  omega

theorem count_changesSection (diffs : List FileDiff) (p : String) (S : List Char)
    (hne : diffs ≠ [])
    (hfiles : ∀ d ∈ diffs, '\n' ∉ d.file.data)
    (hdiffs : ∀ d ∈ diffs, ∀ l ∈ splitC '\n' d.diff.data, l.head? ≠ some '#') :
    (splitC '\n' ((changesSectionStr diffs).data ++ S)).count (headingData p) =
      (diffs.map FileDiff.file).count p + (splitC '\n' S).count (headingData p) := by
  have hform : splitC '\n' ((changesSectionStr diffs).data ++ S) =
      [] :: ("## File Changes" : String).data :: [] ::
        (splitC '\n' (jsJoin "\n" (diffs.map blockStr)).data ++ splitC '\n' S) := by
    simp only [changesSectionStr, data_append, List.append_assoc,
      List.cons_append, List.nil_append]
    simp +decide [splitC_cons_ne, splitC_cons_self, splitC_append_cons,
      splitC_nil, consHead_cons]
  rw [hform]
  simp only [List.count_cons, List.count_append, beq_iff_eq]
  rw [count_blocks diffs p hne hfiles hdiffs,
    if_neg (show ¬(([] : List Char) = headingData p) from nil_line_ne p),
    if_neg (show ¬((['#', '#', ' ', 'F', 'i', 'l', 'e', ' ', 'C', 'h', 'a', 'n', 'g', 'e', 's'] :
        List Char) = headingData p) from
      ne_heading_of_take ['#', '#', ' ', 'F', 'i', 'l', 'e', ' ', 'C', 'h', 'a', 'n', 'g', 'e',
        's'] (by decide) p)]
  omega

/-- C4 counterexample: with `includeReview` enabled and no custom review
comments (a legal configuration, so the claim's "for every config"
fails), the generated review also emits a `### {path}` heading per file:
the path then appears twice in the assembled document even though
`includeChanges` is true. -/
theorem heading_roundtrip_counterexample :
    headingCount (outcomeContent (assemble "r" [⟨"a.ts", "+x"⟩]
      { includeReview := true } "TS")) "a.ts" = 2 ∧ (2 : Nat) ≠ 1 :=
  ⟨rfl, by decide⟩

/-- C4 (amended): assume the review section is disabled (when it is
enabled with no custom comments, the generated review adds its own
`### {path}` headings), the paths are distinct, newline-free, do not
start with `#`, none is the literal `Details`, the requested path is not
`Details`, the title and timestamp are newline-free, and no line of any
raw diff text starts with `#`.  Then every file path of the input
appears exactly once as a `### ` heading line of the assembled document
when `includeChanges` is true, and zero times when it is false. -/
theorem heading_roundtrip (rootDir : String) (diffs : List FileDiff) (cfg : ReportConfig)
    (ts p : String)
    (hrev : cfg.includeReview = false)
    (hne : diffs ≠ [])
    (hnodup : (diffs.map FileDiff.file).Nodup)
    (hp : p ∈ diffs.map FileDiff.file)
    (hpd : p ≠ "Details")
    (htitle : '\n' ∉ cfg.title.data)
    (hts : '\n' ∉ ts.data)
    (hfiles : ∀ d ∈ diffs, '\n' ∉ d.file.data ∧ d.file.data.head? ≠ some '#')
    (hdiffs : ∀ d ∈ diffs, ∀ l ∈ splitC '\n' d.diff.data, l.head? ≠ some '#') :
    headingCount (outcomeContent (assemble rootDir diffs cfg ts)) p =
      if cfg.includeChanges then 1 else 0 := by
  obtain ⟨title, inclCh, inclCm, inclRev, rc⟩ := cfg
  have hrev' : inclRev = false := hrev
  subst hrev'
  have htitle' : '\n' ∉ title.data := htitle
  have hfile1 : ∀ d ∈ diffs, '\n' ∉ d.file.data := fun d hd => (hfiles d hd).1
  have hcount1 : (diffs.map FileDiff.file).count p = 1 :=
    List.count_eq_one_of_mem hnodup hp
  have hff : ((false : Bool) = true) = False := by simp
  have htt : ((true : Bool) = true) = True := by simp
  rw [assemble, if_neg (fun h => hne (List.length_eq_zero.mp h))]
  rw [show ∀ s, outcomeContent (AnalysisOutcome.success s) = s from fun _ => rfl]
  dsimp only
  rw [headingCount, headingData_eq]
  cases inclCm <;> cases inclCh <;>
    simp only [hff, htt, if_false, if_true]
  · have heq : ("# " ++ title ++ "\n\n*Generated on: " ++ ts ++ "*\n\n" ++ "" ++ "" ++ "").data =
        ("# " ++ title ++ "\n\n*Generated on: " ++ ts ++ "*\n\n").data ++ ([] : List Char) := by
      simp [data_append]
    rw [heq, count_docHead title ts p [] htitle' hts, count_splitC_nil]
  · have heq : ("# " ++ title ++ "\n\n*Generated on: " ++ ts ++ "*\n\n" ++ "" ++ "" ++
        changesSectionStr diffs).data =
        ("# " ++ title ++ "\n\n*Generated on: " ++ ts ++ "*\n\n").data ++
          ((changesSectionStr diffs).data ++ ([] : List Char)) := by
      simp [data_append]
    rw [heq, count_docHead title ts p _ htitle' hts,
      count_changesSection diffs p [] hne hfile1 hdiffs, count_splitC_nil, hcount1]
  · have heq : ("# " ++ title ++ "\n\n*Generated on: " ++ ts ++ "*\n\n" ++ "" ++
        commitMessageSectionStr diffs ++ "").data =
        ("# " ++ title ++ "\n\n*Generated on: " ++ ts ++ "*\n\n").data ++
          ((commitMessageSectionStr diffs).data ++ ([] : List Char)) := by
      simp [data_append]
    rw [heq, count_docHead title ts p _ htitle' hts,
      count_cmSection diffs p [] hne hfiles hpd, count_splitC_nil]
  · have heq : ("# " ++ title ++ "\n\n*Generated on: " ++ ts ++ "*\n\n" ++ "" ++
        commitMessageSectionStr diffs ++ changesSectionStr diffs).data =
        ("# " ++ title ++ "\n\n*Generated on: " ++ ts ++ "*\n\n").data ++
          ((commitMessageSectionStr diffs).data ++
            ((changesSectionStr diffs).data ++ ([] : List Char))) := by
      simp [data_append]
    rw [heq, count_docHead title ts p _ htitle' hts,
      count_cmSection diffs p _ hne hfiles hpd,
      count_changesSection diffs p [] hne hfile1 hdiffs, count_splitC_nil, hcount1]

/-- Witness for C4: one concrete diff with the default configuration —
the path heads exactly one `### ` subsection. -/
theorem heading_roundtrip_witness :
    headingCount (outcomeContent (assemble "r" [⟨"a.ts", "+x"⟩] {} "TS")) "a.ts" =
      if ({} : ReportConfig).includeChanges then 1 else 0 :=
  heading_roundtrip "r" [⟨"a.ts", "+x"⟩] {} "TS" "a.ts" rfl (by decide) (by decide)
    (by decide) (by decide) (by decide) (by decide) (by decide) (by decide)
